import Mathlib

/-
  Verification development for the chaos-mesh experiment reconciliation and
  workflow orchestration engines.

  The definitions below are shallow embeddings of the Go source:
  - controllers/common/controller.go            (experiment reconciler)
  - controllers/schedule/pause/controller.go    (pause propagator)
  - pkg/workflow/controllers/parallel_node_reconciler.go (parallel node reconciler)
  - api/v1alpha1 networkchaos types             (BandwidthSpec.ToTbf)
  - api/v1alpha1 common chaos kinds             (IsPaused)

  Go machine integers are modelled as Nat with explicit reduction modulo 2^64
  where overflow can occur; Go maps are modelled as association lists; fallible
  calls return Except or a paired error flag.
-/

namespace ChaosMesh

/- ===== Go string primitives used by the embedded functions ===== -/

/-- ASCII fragment of Go's unicode.IsSpace, the characters relevant to
strings.TrimSpace on rate strings. -/
def goIsSpace (c : Char) : Bool :=
  c == ' ' || c == '\t' || c == '\n' || c == '\x0B' || c == '\x0C' || c == '\r'

/-- strings.TrimSpace restricted to ASCII whitespace. -/
def goTrimSpace (s : String) : String :=
  String.mk (((s.toList.dropWhile goIsSpace).reverse.dropWhile goIsSpace).reverse)

/-- ASCII lowering of one character, the fragment of strings.ToLower exercised
by rate strings. -/
def goToLowerChar (c : Char) : Char :=
  if 'A' ≤ c && c ≤ 'Z' then Char.ofNat (c.toNat + 32) else c

/-- strings.ToLower restricted to ASCII. -/
def goToLower (s : String) : String :=
  String.mk (s.toList.map goToLowerChar)

/-- strings.HasSuffix. -/
def goHasSuffix (s u : String) : Bool :=
  u.toList.isSuffixOf s.toList

/-- strings.TrimSuffix: removes the suffix when present, otherwise returns the
string unchanged. -/
def goTrimSuffix (s u : String) : String :=
  if goHasSuffix s u then String.mk (s.toList.take (s.toList.length - u.toList.length)) else s

/-- Accumulate the numeric value of a decimal digit string. -/
def digitsToNat (cs : List Char) : Nat :=
  cs.foldl (fun a c => a * 10 + (c.toNat - 48)) 0

/-- strconv.ParseUint with base 10 and bitSize 64: a non-empty all-digit
string below 2^64, anything else is an error (none). -/
def goParseUint64 (s : String) : Option Nat :=
  let cs := s.toList
  if cs.isEmpty then none
  else if cs.all Char.isDigit then
    let v := digitsToNat cs
    if v < 2 ^ 64 then some v else none
  else none

/-- Go map read with the zero value "" for a missing key
(m[k] on a string-valued map). -/
def goMapGet (m : List (String × String)) (k : String) : String :=
  match m.find? (fun p => p.1 == k) with
  | some p => p.2
  | none => ""

/-- Go map write m[k] = v. -/
def goMapSet (m : List (String × String)) (k v : String) : List (String × String) :=
  if (m.find? (fun p => p.1 == k)).isSome then
    m.map (fun p => if p.1 == k then (k, v) else p)
  else m ++ [(k, v)]

/- ===== IsPaused (api/v1alpha1, identical body for every chaos kind) ===== -/

/-- v1alpha1.PauseAnnotationKey.  Its concrete value is irrelevant to every
claim; only lookups at this key are observed. -/
def PauseAnnotationKey : String := "experiment.chaos-mesh.org/pause"

/-- IsPaused, the body shared verbatim by every chaos kind (AwsChaos,
NetworkChaos, ...): false when the annotation map is nil or the pause
annotation is not exactly "true", true otherwise.  A nil Go map is none. -/
def isPaused (annotations : Option (List (String × String))) : Bool :=
  match annotations with
  | none => false
  | some m => if goMapGet m PauseAnnotationKey != "true" then false else true

/- ===== BandwidthSpec.ToTbf (api/v1alpha1 networkchaos types) ===== -/

structure BandwidthSpec where
  rate : String
  limit : Nat
  buffer : Nat
  peakrate : Option Nat
  minburst : Option Nat
deriving Repr, DecidableEq

structure Tbf where
  rate : Nat
  limit : Nat
  buffer : Nat
  peakRate : Nat
  minBurst : Nat
deriving Repr, DecidableEq

/-- The two failure modes of ToTbf: strconv.ParseUint failing on the number in
front of the recognized unit, and the explicit errors.New("invalid rate unit")
when no unit matches. -/
inductive RateError where
  | numberError : RateError
  | invalidRateUnit : RateError
deriving Repr, DecidableEq

/-- The unit slice iterated by ToTbf, paired with its loop index. -/
def rateUnits : List (Nat × String) :=
  [(0, "tbps"), (1, "gbps"), (2, "mbps"), (3, "kbps"), (4, "bps")]

/-- Repeated rate = rate * 1024 on a uint64, wrapping modulo 2^64 at each
multiplication. -/
def mulPow1024 : Nat → Nat → Nat
  | r, 0 => r
  | r, k + 1 => mulPow1024 (r * 1024 % 2 ^ 64) k

/-- BandwidthSpec.ToTbf: lower-case and trim the rate, find the first matching
unit suffix among tbps, gbps, mbps, kbps, bps, trim that suffix from the
original rate string, parse the remainder as uint64, and scale by 1024 once
per step from the matched unit down to bps.  No matching unit yields the
explicit invalid-rate-unit error. -/
def BandwidthSpec.toTbf (spec : BandwidthSpec) : Except RateError Tbf :=
  let s := goToLower (goTrimSpace spec.rate)
  match rateUnits.find? (fun p => goHasSuffix s p.2) with
  | some iu =>
    let ts := goTrimSuffix spec.rate iu.2
    let s2 := goTrimSpace ts
    match goParseUint64 s2 with
    | none => Except.error RateError.numberError
    | some r =>
      let rate := mulPow1024 r (4 - iu.1)
      let base : Tbf := { rate := rate, limit := spec.limit, buffer := spec.buffer,
                          peakRate := 0, minBurst := 0 }
      match spec.peakrate, spec.minburst with
      | some p, some m => Except.ok { base with peakRate := p, minBurst := m }
      | _, _ => Except.ok base
  | none => Except.error RateError.invalidRateUnit

example : BandwidthSpec.toTbf ⟨"1mbps", 7, 8, none, none⟩ =
    Except.ok ⟨1048576, 7, 8, 0, 0⟩ := rfl

example : BandwidthSpec.toTbf ⟨"2gbps", 0, 0, none, none⟩ =
    Except.ok ⟨2147483648, 0, 0, 0, 0⟩ := rfl

example : BandwidthSpec.toTbf ⟨"1xbps", 0, 0, none, none⟩ =
    Except.error RateError.numberError := rfl

example : BandwidthSpec.toTbf ⟨"12", 0, 0, none, none⟩ =
    Except.error RateError.invalidRateUnit := rfl

example : isPaused (some [(PauseAnnotationKey, "true")]) = true := by decide
example : isPaused (some [(PauseAnnotationKey, "True")]) = false := by decide
example : isPaused none = false := by decide

/- ===== Experiment reconciler (controllers/common/controller.go) ===== -/

/-- v1alpha1.RunningPhase.  Only equality and distinctness of the desired-phase
constants are observable in the reconciler. -/
def RunningPhase : String := "Run"

/-- v1alpha1.StoppedPhase. -/
def StoppedPhase : String := "Stop"

/-- v1alpha1.Injected record phase. -/
def Injected : String := "Injected"

/-- v1alpha1.NotInjected record phase. -/
def NotInjected : String := "NotInjected"

/-- v1alpha1.Record: one per selected target per selector, carrying the
injection phase.  Phase is a Go string type, so it can hold values other than
the two constants (for example whatever an erroring ChaosImpl returns). -/
structure Record where
  id : String
  selectorKey : String
  phase : String
deriving Repr, DecidableEq

/-- The ChaosImpl capability: Apply and Recover receive the record index, the
full (partially updated) record list and the experiment object, and return the
resulting phase together with an error flag (true = the call returned a non-nil
error).  The Go code assigns the returned phase to the record in either case. -/
structure ChaosImpl (α : Type) where
  apply : Nat → List Record → α → String × Bool
  recover : Nat → List Record → α → String × Bool

/-- Observable trace entry: which of Apply/Recover was invoked, at which record
index. -/
inductive ActionCall where
  | applyCall : Nat → ActionCall
  | recoverCall : Nat → ActionCall
deriving Repr, DecidableEq

/-- Loop state of the record loop: the record list, the shouldUpdate flag, and
the trace of ChaosImpl invocations made so far. -/
abbrev RecState := List Record × Bool × List ActionCall

/-- Second half of one iteration of the record loop: the desired-Stopped
branch, which reads the record again after the desired-Running branch may have
written it. -/
def recordStepStop (impl : ChaosImpl α) (obj : α) (dp : String) (st : RecState) (i : Nat) :
    RecState :=
  match st.1[i]? with
  | none => st
  | some record =>
    if dp == StoppedPhase && record.phase != NotInjected then
      (st.1.set i { record with phase := (impl.recover i st.1 obj).1 }, true,
        st.2.2 ++ [ActionCall.recoverCall i])
    else st

/-- One iteration of the record loop of Reconciler.Reconcile: the
desired-Running branch (Apply, store returned phase, mark dirty) followed by
the desired-Stopped branch (Recover, store returned phase, mark dirty). -/
def recordStep (impl : ChaosImpl α) (obj : α) (dp : String) (st : RecState) (i : Nat) :
    RecState :=
  match st.1[i]? with
  | none => st
  | some record =>
    recordStepStop impl obj dp
      (if dp == RunningPhase && record.phase != Injected then
        (st.1.set i { record with phase := (impl.apply i st.1 obj).1 }, true,
          st.2.2 ++ [ActionCall.applyCall i])
      else st) i

/-- The record loop after its first k iterations. -/
def processUpTo (impl : ChaosImpl α) (obj : α) (dp : String) (records : List Record)
    (su : Bool) (k : Nat) : RecState :=
  (List.range k).foldl (recordStep impl obj dp) (records, su, [])

/-- The whole record loop of one reconcile pass. -/
def processRecords (impl : ChaosImpl α) (obj : α) (dp : String) (records : List Record)
    (su : Bool) : RecState :=
  processUpTo impl obj dp records su records.length

/-- Experiment status as read and written by the reconciler: the desired phase
and the record list, where none models a nil Go slice. -/
structure ExperimentStatus where
  desiredPhase : String
  records : Option (List Record)
deriving Repr, DecidableEq

/-- The record-creation loop run when records == nil: for every declared
selector, append one NotInjected record per resolved target; a selector whose
resolution failed (none) is logged and contributes no targets. -/
def createdRecords (selectors : List (String × Option (List String))) : List Record :=
  selectors.foldl (fun acc p =>
    match p.2 with
    | none => acc
    | some targets =>
      acc ++ targets.map (fun t => { id := t, selectorKey := p.1, phase := NotInjected })) []

/-- Observable outcome of one Reconciler.Reconcile pass. -/
structure PassResult where
  finalRecords : Option (List Record)
  shouldUpdate : Bool
  calls : List ActionCall
  written : Bool
  returnedError : Option String
deriving Repr, DecidableEq

/-- One pass of Reconciler.Reconcile (controllers/common/controller.go): create
records if the list is nil, drive each record toward the desired phase, and if
anything changed write the status under RetryOnConflict.  updateErr is the
outcome of that retry loop (some e = budget exhausted with error e); the Go
function logs every failure and always returns a nil error. -/
def reconcilePass (impl : ChaosImpl α) (obj : α)
    (selectors : List (String × Option (List String)))
    (st : ExperimentStatus) (updateErr : Option String) : PassResult :=
  let init : Option (List Record) × Bool :=
    match st.records with
    | none =>
      let created := createdRecords selectors
      (if created.isEmpty then none else some created, !created.isEmpty)
    | some rs => (some rs, false)
  match init with
  | (none, _) =>
    { finalRecords := none, shouldUpdate := false, calls := [], written := false,
      returnedError := none }
  | (some rs, su0) =>
    let res := processRecords impl obj st.desiredPhase rs su0
    { finalRecords := some res.1,
      shouldUpdate := res.2.1,
      calls := res.2.2,
      written := res.2.1 && updateErr.isNone,
      returnedError := none }

/-- The experiment status after one watch-triggered pass with no external
interference: the status write succeeds (updateErr = none) and replaces the
stored record list when it was attempted. -/
def stepStatus (impl : ChaosImpl α) (obj : α)
    (selectors : List (String × Option (List String)))
    (st : ExperimentStatus) : ExperimentStatus :=
  let res := reconcilePass impl obj selectors st none
  { desiredPhase := st.desiredPhase,
    records := if res.written then res.finalRecords else st.records }

/- ===== Basic lemmas about the record loop ===== -/

theorem run_ne_stop : RunningPhase ≠ StoppedPhase := by decide

theorem recordStepStop_of_ne_stop {impl : ChaosImpl α} {obj : α} {dp : String}
    (hdp : dp ≠ StoppedPhase) (st : RecState) (i : Nat) :
    recordStepStop impl obj dp st i = st := by
  unfold recordStepStop
  split
  · rfl
  · have hb : (dp == StoppedPhase) = false := beq_eq_false_iff_ne.mpr hdp
    simp [hb]

theorem recordStepStop_noop {impl : ChaosImpl α} {obj : α} {dp : String}
    {st : RecState} {i : Nat} {r : Record} (h : st.1[i]? = some r)
    (hno : ¬(dp = StoppedPhase ∧ r.phase ≠ NotInjected)) :
    recordStepStop impl obj dp st i = st := by
  have hc : (dp == StoppedPhase && r.phase != NotInjected) = false := by
    by_cases h1 : dp = StoppedPhase
    · have h2 : r.phase = NotInjected := by
        by_contra h2
        exact hno ⟨h1, h2⟩
      simp [h2]
    · simp [beq_eq_false_iff_ne.mpr h1]
  unfold recordStepStop
  simp [h, hc]

theorem recordStepStop_fire {impl : ChaosImpl α} {obj : α} {dp : String}
    {st : RecState} {i : Nat} {r : Record} (h : st.1[i]? = some r)
    (h1 : dp = StoppedPhase) (h2 : r.phase ≠ NotInjected) :
    recordStepStop impl obj dp st i =
      (st.1.set i { r with phase := (impl.recover i st.1 obj).1 }, true,
        st.2.2 ++ [ActionCall.recoverCall i]) := by
  have hc : (dp == StoppedPhase && r.phase != NotInjected) = true := by
    simp [h1, bne_iff_ne, h2]
  unfold recordStepStop
  simp [h, hc]

theorem recordStep_none {impl : ChaosImpl α} {obj : α} {dp : String}
    {st : RecState} {i : Nat} (h : st.1[i]? = none) :
    recordStep impl obj dp st i = st := by
  unfold recordStep
  simp [h]

theorem recordStep_apply_fire {impl : ChaosImpl α} {obj : α} {dp : String}
    {st : RecState} {i : Nat} {r : Record} (h : st.1[i]? = some r)
    (h1 : dp = RunningPhase) (h2 : r.phase ≠ Injected) :
    recordStep impl obj dp st i =
      (st.1.set i { r with phase := (impl.apply i st.1 obj).1 }, true,
        st.2.2 ++ [ActionCall.applyCall i]) := by
  have hc : (dp == RunningPhase && r.phase != Injected) = true := by
    simp [h1, bne_iff_ne, h2]
  unfold recordStep
  simp only [h, hc, if_true]
  exact recordStepStop_of_ne_stop (h1 ▸ run_ne_stop) _ _

theorem recordStep_recover_fire {impl : ChaosImpl α} {obj : α} {dp : String}
    {st : RecState} {i : Nat} {r : Record} (h : st.1[i]? = some r)
    (h1 : dp = StoppedPhase) (h2 : r.phase ≠ NotInjected) :
    recordStep impl obj dp st i =
      (st.1.set i { r with phase := (impl.recover i st.1 obj).1 }, true,
        st.2.2 ++ [ActionCall.recoverCall i]) := by
  have hc : (dp == RunningPhase && r.phase != Injected) = false := by
    have : dp ≠ RunningPhase := by
      rw [h1]
      exact fun hh => run_ne_stop hh.symm
    simp [beq_eq_false_iff_ne.mpr this]
  unfold recordStep
  simp only [h, hc, Bool.false_eq_true, if_false]
  exact recordStepStop_fire h h1 h2

theorem recordStep_noop {impl : ChaosImpl α} {obj : α} {dp : String}
    {st : RecState} {i : Nat} {r : Record} (h : st.1[i]? = some r)
    (hA : ¬(dp = RunningPhase ∧ r.phase ≠ Injected))
    (hS : ¬(dp = StoppedPhase ∧ r.phase ≠ NotInjected)) :
    recordStep impl obj dp st i = st := by
  have hc : (dp == RunningPhase && r.phase != Injected) = false := by
    by_cases h1 : dp = RunningPhase
    · have h2 : r.phase = Injected := by
        by_contra h2
        exact hA ⟨h1, h2⟩
      simp [h2]
    · simp [beq_eq_false_iff_ne.mpr h1]
  unfold recordStep
  simp only [h, hc, Bool.false_eq_true, if_false]
  exact recordStepStop_noop h hS

/-- Every iteration of the record loop either leaves the state alone or writes
one record at its own index and raises the dirty flag. -/
theorem recordStep_shape (impl : ChaosImpl α) (obj : α) (dp : String)
    (st : RecState) (i : Nat) :
    recordStep impl obj dp st i = st ∨
      ∃ x cs, recordStep impl obj dp st i = (st.1.set i x, true, cs) := by
  cases h : st.1[i]? with
  | none => exact Or.inl (recordStep_none h)
  | some r =>
    by_cases hA : dp = RunningPhase ∧ r.phase ≠ Injected
    · exact Or.inr ⟨_, _, recordStep_apply_fire h hA.1 hA.2⟩
    · by_cases hS : dp = StoppedPhase ∧ r.phase ≠ NotInjected
      · exact Or.inr ⟨_, _, recordStep_recover_fire h hS.1 hS.2⟩
      · exact Or.inl (recordStep_noop h hA hS)

theorem recordStep_length (impl : ChaosImpl α) (obj : α) (dp : String)
    (st : RecState) (i : Nat) :
    (recordStep impl obj dp st i).1.length = st.1.length := by
  rcases recordStep_shape impl obj dp st i with h | ⟨x, cs, h⟩ <;> rw [h]
  exact List.length_set ..

theorem recordStep_getElem_ne (impl : ChaosImpl α) (obj : α) (dp : String)
    (st : RecState) {i j : Nat} (hij : i ≠ j) :
    (recordStep impl obj dp st i).1[j]? = st.1[j]? := by
  rcases recordStep_shape impl obj dp st i with h | ⟨x, cs, h⟩ <;> rw [h]
  exact List.getElem?_set_ne hij

theorem recordStep_su_true (impl : ChaosImpl α) (obj : α) (dp : String)
    (st : RecState) (i : Nat) (h : st.2.1 = true) :
    (recordStep impl obj dp st i).2.1 = true := by
  rcases recordStep_shape impl obj dp st i with hh | ⟨x, cs, hh⟩ <;> rw [hh]
  exact h

theorem recordStep_eq_of_su_false (impl : ChaosImpl α) (obj : α) (dp : String)
    (st : RecState) (i : Nat) (h : (recordStep impl obj dp st i).2.1 = false) :
    recordStep impl obj dp st i = st := by
  rcases recordStep_shape impl obj dp st i with hh | ⟨x, cs, hh⟩
  · exact hh
  · rw [hh] at h
    cases h

theorem foldSteps_length (impl : ChaosImpl α) (obj : α) (dp : String)
    (is : List Nat) (st : RecState) :
    ((is.foldl (recordStep impl obj dp) st).1.length) = st.1.length := by
  induction is generalizing st with
  | nil => rfl
  | cons j js ih =>
    rw [List.foldl_cons, ih]
    exact recordStep_length ..

theorem foldSteps_su_true (impl : ChaosImpl α) (obj : α) (dp : String)
    (is : List Nat) (st : RecState) (h : st.2.1 = true) :
    (is.foldl (recordStep impl obj dp) st).2.1 = true := by
  induction is generalizing st with
  | nil => exact h
  | cons j js ih =>
    rw [List.foldl_cons]
    exact ih _ (recordStep_su_true _ _ _ _ _ h)

theorem foldSteps_eq_of_su_false (impl : ChaosImpl α) (obj : α) (dp : String)
    (is : List Nat) (st : RecState)
    (h : (is.foldl (recordStep impl obj dp) st).2.1 = false) :
    is.foldl (recordStep impl obj dp) st = st := by
  induction is generalizing st with
  | nil => rfl
  | cons j js ih =>
    rw [List.foldl_cons] at h ⊢
    have h1 : (recordStep impl obj dp st j).2.1 = false := by
      by_contra hb
      have hb' : (recordStep impl obj dp st j).2.1 = true := by
        cases hx : (recordStep impl obj dp st j).2.1
        · exact absurd hx hb
        · rfl
      rw [foldSteps_su_true impl obj dp js _ hb'] at h
      cases h
    have h2 := recordStep_eq_of_su_false impl obj dp st j h1
    rw [h2] at h ⊢
    exact ih _ h

theorem foldSteps_getElem_not_mem (impl : ChaosImpl α) (obj : α) (dp : String)
    (is : List Nat) (st : RecState) (i : Nat) (h : ∀ j ∈ is, j ≠ i) :
    (is.foldl (recordStep impl obj dp) st).1[i]? = st.1[i]? := by
  induction is generalizing st with
  | nil => rfl
  | cons j js ih =>
    rw [List.foldl_cons]
    rw [ih _ (fun k hk => h k (List.mem_cons_of_mem _ hk))]
    exact recordStep_getElem_ne impl obj dp st (h j (List.mem_cons_self ..))

theorem processUpTo_zero (impl : ChaosImpl α) (obj : α) (dp : String)
    (records : List Record) (su : Bool) :
    processUpTo impl obj dp records su 0 = (records, su, []) := rfl

theorem processUpTo_succ (impl : ChaosImpl α) (obj : α) (dp : String)
    (records : List Record) (su : Bool) (k : Nat) :
    processUpTo impl obj dp records su (k + 1) =
      recordStep impl obj dp (processUpTo impl obj dp records su k) k := by
  unfold processUpTo
  rw [List.range_succ k, List.foldl_append]
  rfl

theorem processUpTo_length (impl : ChaosImpl α) (obj : α) (dp : String)
    (records : List Record) (su : Bool) (k : Nat) :
    (processUpTo impl obj dp records su k).1.length = records.length :=
  foldSteps_length impl obj dp (List.range k) (records, su, [])

theorem processUpTo_stable (impl : ChaosImpl α) (obj : α) (dp : String)
    (records : List Record) (su : Bool) {i k : Nat} (hik : i < k) :
    (processUpTo impl obj dp records su k).1[i]? =
      (processUpTo impl obj dp records su (i + 1)).1[i]? := by
  induction k, hik using Nat.le_induction with
  | base => rfl
  | succ k hk ih =>
    rw [processUpTo_succ]
    rw [recordStep_getElem_ne impl obj dp _ (by omega)]
    exact ih

/- ===== C1: dispatch of Apply/Recover per record ===== -/

/-- What one iteration of the record loop must do at index i, given the state
st the loop has reached before it: desired Running and phase not Injected
invokes Apply and stores its returned phase; desired Stopped and phase not
NotInjected invokes Recover and stores its returned phase; any other
combination leaves the state untouched and invokes nothing. -/
def stepSpec (impl : ChaosImpl α) (obj : α) (dp : String) (st : RecState) (i : Nat)
    (next : RecState) : Prop :=
  ∃ r, st.1[i]? = some r ∧
    ((dp = RunningPhase ∧ r.phase ≠ Injected →
        next = (st.1.set i { r with phase := (impl.apply i st.1 obj).1 }, true,
          st.2.2 ++ [ActionCall.applyCall i])) ∧
     (dp = StoppedPhase ∧ r.phase ≠ NotInjected →
        next = (st.1.set i { r with phase := (impl.recover i st.1 obj).1 }, true,
          st.2.2 ++ [ActionCall.recoverCall i])) ∧
     (¬(dp = RunningPhase ∧ r.phase ≠ Injected) →
      ¬(dp = StoppedPhase ∧ r.phase ≠ NotInjected) →
        next = st))

/-- C1: in a single reconcile pass, every record is handled exactly as the
claim states: desired Running with phase not Injected invokes Apply and stores
the returned phase, desired Stopped with phase not NotInjected invokes Recover
and stores the returned phase, and every other combination invokes neither and
leaves the record (and the whole loop state) unchanged. -/
theorem reconcile_record_dispatch (impl : ChaosImpl α) (obj : α) (dp : String)
    (records : List Record) (su : Bool) (i : Nat) (h : i < records.length) :
    stepSpec impl obj dp (processUpTo impl obj dp records su i) i
      (processUpTo impl obj dp records su (i + 1)) := by
  have hlen : i < (processUpTo impl obj dp records su i).1.length := by
    rw [processUpTo_length]
    exact h
  refine ⟨(processUpTo impl obj dp records su i).1[i], List.getElem?_eq_getElem hlen,
    ?_, ?_, ?_⟩
  · rintro ⟨h1, h2⟩
    rw [processUpTo_succ]
    exact recordStep_apply_fire (List.getElem?_eq_getElem hlen) h1 h2
  · rintro ⟨h1, h2⟩
    rw [processUpTo_succ]
    exact recordStep_recover_fire (List.getElem?_eq_getElem hlen) h1 h2
  · intro hA hS
    rw [processUpTo_succ]
    exact recordStep_noop (List.getElem?_eq_getElem hlen) hA hS

/-- A well-behaved ChaosImpl for concrete instantiations: Apply reports
Injected and Recover reports NotInjected, both without error. -/
def implDemo : ChaosImpl Unit :=
  { apply := fun _ _ _ => (Injected, false),
    recover := fun _ _ _ => (NotInjected, false) }

/-- A failing ChaosImpl for concrete instantiations: both calls return a
non-nil error together with the Go zero-value phase "". -/
def implErr : ChaosImpl Unit :=
  { apply := fun _ _ _ => ("", true),
    recover := fun _ _ _ => ("", true) }

/-- Witness for C1 at a concrete input. -/
theorem reconcile_record_dispatch_witness :
    stepSpec implDemo () RunningPhase
      (processUpTo implDemo () RunningPhase
        [{ id := "pod-0", selectorKey := "s", phase := NotInjected }] false 0) 0
      (processUpTo implDemo () RunningPhase
        [{ id := "pod-0", selectorKey := "s", phase := NotInjected }] false 1) :=
  reconcile_record_dispatch implDemo () RunningPhase
    [{ id := "pod-0", selectorKey := "s", phase := NotInjected }] false 0 (by decide)

/- ===== Driving records toward the desired phase ===== -/

theorem fireRun (impl : ChaosImpl α) (obj : α)
    (hA : ∀ i rs, (impl.apply i rs obj).1 = Injected) :
    ∀ (st : RecState) (i : Nat) (r : Record), st.1[i]? = some r → r.phase ≠ Injected →
      ∃ cs, recordStep impl obj RunningPhase st i =
        (st.1.set i { r with phase := Injected }, true, cs) := by
  intro st i r h hph
  refine ⟨st.2.2 ++ [ActionCall.applyCall i], ?_⟩
  rw [recordStep_apply_fire h rfl hph, hA]

theorem skipRun (impl : ChaosImpl α) (obj : α) :
    ∀ (st : RecState) (i : Nat) (r : Record), st.1[i]? = some r → r.phase = Injected →
      recordStep impl obj RunningPhase st i = st := by
  intro st i r h hph
  exact recordStep_noop h (fun hh => hh.2 hph) (fun hh => run_ne_stop hh.1)

theorem fireStop (impl : ChaosImpl α) (obj : α)
    (hR : ∀ i rs, (impl.recover i rs obj).1 = NotInjected) :
    ∀ (st : RecState) (i : Nat) (r : Record), st.1[i]? = some r → r.phase ≠ NotInjected →
      ∃ cs, recordStep impl obj StoppedPhase st i =
        (st.1.set i { r with phase := NotInjected }, true, cs) := by
  intro st i r h hph
  refine ⟨st.2.2 ++ [ActionCall.recoverCall i], ?_⟩
  rw [recordStep_recover_fire h rfl hph, hR]

theorem skipStop (impl : ChaosImpl α) (obj : α) :
    ∀ (st : RecState) (i : Nat) (r : Record), st.1[i]? = some r → r.phase = NotInjected →
      recordStep impl obj StoppedPhase st i = st := by
  intro st i r h hph
  exact recordStep_noop h (fun hh => run_ne_stop hh.1.symm) (fun hh => hh.2 hph)

/-- Invariant of the record loop: once every iteration either fixes its record
to phase T or leaves the state alone, the first k records have phase T after k
iterations and the rest are still the input records. -/
theorem processUpTo_allPhase (impl : ChaosImpl α) (obj : α) (dp : String) (T : String)
    (hfire : ∀ (st : RecState) (i : Nat) (r : Record), st.1[i]? = some r → r.phase ≠ T →
      ∃ cs, recordStep impl obj dp st i = (st.1.set i { r with phase := T }, true, cs))
    (hskip : ∀ (st : RecState) (i : Nat) (r : Record), st.1[i]? = some r → r.phase = T →
      recordStep impl obj dp st i = st)
    (records : List Record) (su : Bool) :
    ∀ k, k ≤ records.length →
      (∀ i, i < k →
        ∃ r, (processUpTo impl obj dp records su k).1[i]? = some r ∧ r.phase = T) ∧
      (∀ i, k ≤ i → (processUpTo impl obj dp records su k).1[i]? = records[i]?) := by
  intro k
  induction k with
  | zero =>
    intro _
    exact ⟨fun i hi => absurd hi (Nat.not_lt_zero i), fun i _ => rfl⟩
  | succ k ih =>
    intro hk1
    have hk : k ≤ records.length := Nat.le_of_succ_le hk1
    obtain ⟨ih1, ih2⟩ := ih hk
    have hklen : k < records.length := hk1
    have hst : (processUpTo impl obj dp records su k).1[k]? = some records[k] :=
      (ih2 k (Nat.le_refl k)).trans (List.getElem?_eq_getElem hklen)
    rw [processUpTo_succ]
    by_cases hT : (records[k]).phase = T
    · rw [hskip _ k records[k] hst hT]
      refine ⟨fun i hi => ?_, fun i hi => ih2 i (Nat.le_of_succ_le hi)⟩
      rcases Nat.lt_succ_iff_lt_or_eq.mp hi with hlt | heq
      · exact ih1 i hlt
      · subst heq
        exact ⟨records[i], hst, hT⟩
    · obtain ⟨cs, hstep⟩ := hfire _ k records[k] hst hT
      rw [hstep]
      constructor
      · intro i hi
        rcases Nat.lt_succ_iff_lt_or_eq.mp hi with hlt | heq
        · rw [List.getElem?_set_ne (show k ≠ i by omega)]
          exact ih1 i hlt
        · subst heq
          have hlen2 : i < (processUpTo impl obj dp records su i).1.length := by
            rw [processUpTo_length]
            omega
          rw [List.getElem?_set_eq_of_lt _ hlen2]
          exact ⟨_, rfl, rfl⟩
      · intro i hi
        rw [List.getElem?_set_ne (show k ≠ i by omega)]
        exact ih2 i (by omega)

/-- After a full record loop under the fire/skip discipline, every record has
phase T. -/
theorem processRecords_allPhase (impl : ChaosImpl α) (obj : α) (dp : String) (T : String)
    (hfire : ∀ (st : RecState) (i : Nat) (r : Record), st.1[i]? = some r → r.phase ≠ T →
      ∃ cs, recordStep impl obj dp st i = (st.1.set i { r with phase := T }, true, cs))
    (hskip : ∀ (st : RecState) (i : Nat) (r : Record), st.1[i]? = some r → r.phase = T →
      recordStep impl obj dp st i = st)
    (records : List Record) (su : Bool) :
    ∀ r ∈ (processRecords impl obj dp records su).1, r.phase = T := by
  intro r hr
  obtain ⟨i, hi⟩ := List.mem_iff_getElem?.mp hr
  have hilen : i < records.length := by
    have h1 : (processRecords impl obj dp records su).1.length = records.length :=
      processUpTo_length impl obj dp records su records.length
    have h2 : i < (processRecords impl obj dp records su).1.length := by
      by_contra hcon
      rw [List.getElem?_eq_none (Nat.le_of_not_lt hcon)] at hi
      cases hi
    omega
  obtain ⟨r', hr', hT⟩ :=
    (processUpTo_allPhase impl obj dp T hfire hskip records su records.length
      (Nat.le_refl _)).1 i hilen
  have : some r = some r' := by
    rw [← hi, ← hr']
    rfl
  cases this
  exact hT

/- ===== Unfolding lemmas for one whole pass ===== -/

theorem reconcilePass_none_empty (impl : ChaosImpl α) (obj : α)
    (selectors : List (String × Option (List String))) (st : ExperimentStatus)
    (updateErr : Option String) (h : st.records = none)
    (he : (createdRecords selectors).isEmpty = true) :
    reconcilePass impl obj selectors st updateErr =
      { finalRecords := none, shouldUpdate := false, calls := [], written := false,
        returnedError := none } := by
  unfold reconcilePass
  simp [h, he]

theorem reconcilePass_none_nonempty (impl : ChaosImpl α) (obj : α)
    (selectors : List (String × Option (List String))) (st : ExperimentStatus)
    (updateErr : Option String) (h : st.records = none)
    (he : (createdRecords selectors).isEmpty = false) :
    reconcilePass impl obj selectors st updateErr =
      { finalRecords :=
          some (processRecords impl obj st.desiredPhase (createdRecords selectors) true).1,
        shouldUpdate :=
          (processRecords impl obj st.desiredPhase (createdRecords selectors) true).2.1,
        calls := (processRecords impl obj st.desiredPhase (createdRecords selectors) true).2.2,
        written :=
          (processRecords impl obj st.desiredPhase (createdRecords selectors) true).2.1 &&
            updateErr.isNone,
        returnedError := none } := by
  unfold reconcilePass
  simp [h, he]

theorem reconcilePass_some (impl : ChaosImpl α) (obj : α)
    (selectors : List (String × Option (List String))) (st : ExperimentStatus)
    (updateErr : Option String) (rs : List Record) (h : st.records = some rs) :
    reconcilePass impl obj selectors st updateErr =
      { finalRecords := some (processRecords impl obj st.desiredPhase rs false).1,
        shouldUpdate := (processRecords impl obj st.desiredPhase rs false).2.1,
        calls := (processRecords impl obj st.desiredPhase rs false).2.2,
        written := (processRecords impl obj st.desiredPhase rs false).2.1 && updateErr.isNone,
        returnedError := none } := by
  unfold reconcilePass
  simp [h]

theorem stepStatus_desiredPhase (impl : ChaosImpl α) (obj : α)
    (selectors : List (String × Option (List String))) (st : ExperimentStatus) :
    (stepStatus impl obj selectors st).desiredPhase = st.desiredPhase := rfl

theorem iterate_stepStatus_desiredPhase (impl : ChaosImpl α) (obj : α)
    (selectors : List (String × Option (List String))) (st : ExperimentStatus) (n : Nat) :
    ((stepStatus impl obj selectors)^[n] st).desiredPhase = st.desiredPhase := by
  induction n with
  | zero => rfl
  | succ n ih =>
    rw [Function.iterate_succ_apply', stepStatus_desiredPhase]
    exact ih

/-- Every record the status holds (none means a nil record list) has phase p. -/
def statusRecordsAll (st : ExperimentStatus) (p : String) : Prop :=
  ∀ rs, st.records = some rs → ∀ r ∈ rs, r.phase = p

theorem stepStatus_allPhase (impl : ChaosImpl α) (obj : α)
    (selectors : List (String × Option (List String))) (st : ExperimentStatus) (T : String)
    (hfire : ∀ (stt : RecState) (i : Nat) (r : Record), stt.1[i]? = some r → r.phase ≠ T →
      ∃ cs, recordStep impl obj st.desiredPhase stt i =
        (stt.1.set i { r with phase := T }, true, cs))
    (hskip : ∀ (stt : RecState) (i : Nat) (r : Record), stt.1[i]? = some r → r.phase = T →
      recordStep impl obj st.desiredPhase stt i = stt) :
    statusRecordsAll (stepStatus impl obj selectors st) T := by
  intro rs hrs
  simp only [stepStatus] at hrs
  cases hrec : st.records with
  | none =>
    cases he : (createdRecords selectors).isEmpty with
    | true =>
      rw [reconcilePass_none_empty impl obj selectors st none hrec he] at hrs
      simp [hrec] at hrs
    | false =>
      rw [reconcilePass_none_nonempty impl obj selectors st none hrec he] at hrs
      have hsu : (processRecords impl obj st.desiredPhase (createdRecords selectors) true).2.1
          = true :=
        foldSteps_su_true impl obj st.desiredPhase (List.range _) (_, true, []) rfl
      simp [hsu] at hrs
      subst hrs
      exact processRecords_allPhase impl obj st.desiredPhase T hfire hskip _ true
  | some rs0 =>
    rw [reconcilePass_some impl obj selectors st none rs0 hrec] at hrs
    cases hsu : (processRecords impl obj st.desiredPhase rs0 false).2.1 with
    | false =>
      rw [hsu] at hrs
      simp [hrec] at hrs
      subst hrs
      have heq : processRecords impl obj st.desiredPhase rs0 false = (rs0, false, []) :=
        foldSteps_eq_of_su_false impl obj st.desiredPhase (List.range _) (_, false, []) hsu
      intro r hr
      have hr' : r ∈ (processRecords impl obj st.desiredPhase rs0 false).1 := by
        rw [heq]
        exact hr
      exact processRecords_allPhase impl obj st.desiredPhase T hfire hskip rs0 false r hr'
    | true =>
      rw [hsu] at hrs
      simp at hrs
      subst hrs
      exact processRecords_allPhase impl obj st.desiredPhase T hfire hskip rs0 false

/-- C4: with a ChaosImpl honouring the Apply/Recover contract (Apply reports
Injected, Recover reports NotInjected), repeated reconcile passes with no
external interference eventually make every record's phase match the desired
phase: from the first pass on, desired Running means all records Injected and
desired Stopped means all records NotInjected. -/
theorem chaos_convergence (impl : ChaosImpl α) (obj : α)
    (selectors : List (String × Option (List String))) (st : ExperimentStatus)
    (hA : ∀ i rs, (impl.apply i rs obj).1 = Injected)
    (hR : ∀ i rs, (impl.recover i rs obj).1 = NotInjected) :
    ∃ N, ∀ n, N ≤ n →
      (st.desiredPhase = RunningPhase →
        statusRecordsAll ((stepStatus impl obj selectors)^[n] st) Injected) ∧
      (st.desiredPhase = StoppedPhase →
        statusRecordsAll ((stepStatus impl obj selectors)^[n] st) NotInjected) := by
  refine ⟨1, ?_⟩
  intro n hn
  obtain ⟨m, rfl⟩ : ∃ m, n = m + 1 := ⟨n - 1, by omega⟩
  rw [Function.iterate_succ_apply']
  have hdp : ((stepStatus impl obj selectors)^[m] st).desiredPhase = st.desiredPhase :=
    iterate_stepStatus_desiredPhase impl obj selectors st m
  constructor
  · intro hrun
    have hdp' : ((stepStatus impl obj selectors)^[m] st).desiredPhase = RunningPhase :=
      hdp.trans hrun
    apply stepStatus_allPhase
    · exact fun stt i r h hph => by
        rw [hdp']
        exact fireRun impl obj hA stt i r h hph
    · exact fun stt i r h hph => by
        rw [hdp']
        exact skipRun impl obj stt i r h hph
  · intro hstop
    have hdp' : ((stepStatus impl obj selectors)^[m] st).desiredPhase = StoppedPhase :=
      hdp.trans hstop
    apply stepStatus_allPhase
    · exact fun stt i r h hph => by
        rw [hdp']
        exact fireStop impl obj hR stt i r h hph
    · exact fun stt i r h hph => by
        rw [hdp']
        exact skipStop impl obj stt i r h hph

/-- Witness for C4 at a concrete experiment. -/
theorem chaos_convergence_witness :
    ∃ N, ∀ n, N ≤ n →
      ((⟨RunningPhase, some [{ id := "pod-0", selectorKey := "s", phase := NotInjected }]⟩ :
          ExperimentStatus).desiredPhase = RunningPhase →
        statusRecordsAll
          ((stepStatus implDemo () [("s", some ["pod-0"])])^[n]
            ⟨RunningPhase, some [{ id := "pod-0", selectorKey := "s", phase := NotInjected }]⟩)
          Injected) ∧
      ((⟨RunningPhase, some [{ id := "pod-0", selectorKey := "s", phase := NotInjected }]⟩ :
          ExperimentStatus).desiredPhase = StoppedPhase →
        statusRecordsAll
          ((stepStatus implDemo () [("s", some ["pod-0"])])^[n]
            ⟨RunningPhase, some [{ id := "pod-0", selectorKey := "s", phase := NotInjected }]⟩)
          NotInjected) :=
  chaos_convergence implDemo () [("s", some ["pod-0"])]
    ⟨RunningPhase, some [{ id := "pod-0", selectorKey := "s", phase := NotInjected }]⟩
    (fun _ _ => rfl) (fun _ _ => rfl)

/- ===== C5: record-set stability ===== -/

theorem set_eq_self_of_getElem {β : Type} (l : List β) (i : Nat) (a : β)
    (h : l[i]? = some a) : l.set i a = l := by
  induction l generalizing i with
  | nil => cases h
  | cons x xs ih =>
    cases i with
    | zero =>
      have hx : x = a := by simpa using h
      subst hx
      rfl
    | succ i =>
      have h' : xs[i]? = some a := by simpa using h
      show x :: xs.set i a = x :: xs
      rw [ih i h']

/-- The identity of a record: its target id and selector key, everything but
the phase. -/
def pairs (l : List Record) : List (String × String) :=
  l.map (fun r => (r.id, r.selectorKey))

theorem pairs_set (l : List Record) (i : Nat) (r : Record) (p : String)
    (h : l[i]? = some r) :
    pairs (l.set i { r with phase := p }) = pairs l := by
  unfold pairs
  rw [List.map_set]
  apply set_eq_self_of_getElem
  rw [List.getElem?_map, h]
  rfl

theorem recordStep_pairs (impl : ChaosImpl α) (obj : α) (dp : String)
    (st : RecState) (i : Nat) :
    pairs (recordStep impl obj dp st i).1 = pairs st.1 := by
  cases h : st.1[i]? with
  | none => rw [recordStep_none h]
  | some r =>
    by_cases hA : dp = RunningPhase ∧ r.phase ≠ Injected
    · rw [recordStep_apply_fire h hA.1 hA.2]
      exact pairs_set st.1 i r _ h
    · by_cases hS : dp = StoppedPhase ∧ r.phase ≠ NotInjected
      · rw [recordStep_recover_fire h hS.1 hS.2]
        exact pairs_set st.1 i r _ h
      · rw [recordStep_noop h hA hS]

theorem foldSteps_pairs (impl : ChaosImpl α) (obj : α) (dp : String)
    (is : List Nat) (st : RecState) :
    pairs (is.foldl (recordStep impl obj dp) st).1 = pairs st.1 := by
  induction is generalizing st with
  | nil => rfl
  | cons j js ih =>
    rw [List.foldl_cons, ih]
    exact recordStep_pairs impl obj dp st j

theorem processRecords_pairs (impl : ChaosImpl α) (obj : α) (dp : String)
    (records : List Record) (su : Bool) :
    pairs (processRecords impl obj dp records su).1 = pairs records :=
  foldSteps_pairs impl obj dp (List.range records.length) (records, su, [])

/-- The records one selector contributes on the creation pass. -/
def recordsOfSelector (p : String × Option (List String)) : List Record :=
  match p.2 with
  | none => []
  | some targets =>
    targets.map (fun t => { id := t, selectorKey := p.1, phase := NotInjected })

theorem createdRecords_eq (selectors : List (String × Option (List String))) :
    createdRecords selectors = selectors.flatMap recordsOfSelector := by
  have key : ∀ (sels : List (String × Option (List String))) (acc : List Record),
      sels.foldl (fun acc p =>
        match p.2 with
        | none => acc
        | some targets =>
          acc ++ targets.map (fun t => { id := t, selectorKey := p.1, phase := NotInjected }))
        acc = acc ++ sels.flatMap recordsOfSelector := by
    intro sels
    induction sels with
    | nil =>
      intro acc
      simp
    | cons p ps ih =>
      intro acc
      rw [List.foldl_cons, List.flatMap_cons]
      have hstep : (match p.2 with
          | none => acc
          | some targets =>
            acc ++ targets.map (fun t =>
              ({ id := t, selectorKey := p.1, phase := NotInjected } : Record)))
          = acc ++ recordsOfSelector p := by
        unfold recordsOfSelector
        cases p.2 with
        | none => simp
        | some ts => rfl
      rw [hstep, ih, List.append_assoc]
  unfold createdRecords
  simpa using key selectors []

theorem createdRecords_phase (selectors : List (String × Option (List String))) :
    ∀ r ∈ createdRecords selectors, r.phase = NotInjected := by
  rw [createdRecords_eq]
  intro r hr
  obtain ⟨p, hp, hrp⟩ := List.mem_flatMap.mp hr
  unfold recordsOfSelector at hrp
  cases h2 : p.2 with
  | none =>
    rw [h2] at hrp
    cases hrp
  | some ts =>
    rw [h2] at hrp
    obtain ⟨t, _, rfl⟩ := List.mem_map.mp hrp
    rfl

/-- C5: records are created only on a pass where the record list is nil — one
record per resolved target per declared selector, each with phase NotInjected
(the list createdRecords selectors, which is the flattened per-selector target
lists) — and a pass starting from a non-nil record list keeps the sequence of
(target id, selector key) pairs exactly, modifying only phases. -/
theorem record_list_stability (impl : ChaosImpl α) (obj : α)
    (selectors : List (String × Option (List String))) (st : ExperimentStatus)
    (updateErr : Option String) :
    (∀ rs, st.records = some rs →
      ∃ rs', (reconcilePass impl obj selectors st updateErr).finalRecords = some rs' ∧
        pairs rs' = pairs rs) ∧
    (st.records = none →
      ((reconcilePass impl obj selectors st updateErr).finalRecords = none ∧
        createdRecords selectors = []) ∨
      (∃ rs', (reconcilePass impl obj selectors st updateErr).finalRecords = some rs' ∧
        pairs rs' = pairs (createdRecords selectors))) ∧
    (createdRecords selectors = selectors.flatMap recordsOfSelector ∧
      ∀ r ∈ createdRecords selectors, r.phase = NotInjected) := by
  refine ⟨?_, ?_, createdRecords_eq selectors, createdRecords_phase selectors⟩
  · intro rs hrs
    rw [reconcilePass_some impl obj selectors st updateErr rs hrs]
    exact ⟨_, rfl, processRecords_pairs impl obj st.desiredPhase rs false⟩
  · intro hnone
    cases he : (createdRecords selectors).isEmpty with
    | true =>
      left
      exact ⟨by rw [reconcilePass_none_empty impl obj selectors st updateErr hnone he],
        List.isEmpty_iff.mp he⟩
    | false =>
      right
      rw [reconcilePass_none_nonempty impl obj selectors st updateErr hnone he]
      exact ⟨_, rfl, processRecords_pairs impl obj st.desiredPhase _ true⟩

/-- Witness for C5 at a concrete input. -/
theorem record_list_stability_witness :
    ∃ rs',
      (reconcilePass implDemo () [("s", some ["pod-0"])]
        ⟨RunningPhase, some [{ id := "pod-0", selectorKey := "s", phase := NotInjected }]⟩
        none).finalRecords = some rs' ∧
      pairs rs' = pairs [{ id := "pod-0", selectorKey := "s", phase := NotInjected }] :=
  (record_list_stability implDemo () [("s", some ["pod-0"])]
      ⟨RunningPhase, some [{ id := "pod-0", selectorKey := "s", phase := NotInjected }]⟩
      none).1 _ rfl

/- ===== C6: behaviour on Apply/Recover errors ===== -/

theorem processUpTo_su_mono (impl : ChaosImpl α) (obj : α) (dp : String)
    (records : List Record) (su : Bool) {k l : Nat} (hkl : k ≤ l)
    (h : (processUpTo impl obj dp records su k).2.1 = true) :
    (processUpTo impl obj dp records su l).2.1 = true := by
  induction l, hkl using Nat.le_induction with
  | base => exact h
  | succ l hl ih =>
    rw [processUpTo_succ]
    exact recordStep_su_true impl obj dp _ l ih

/-- C6 counterexample: a Recover invocation that returns an error together
with the Go zero-value phase "" does not leave the record's phase unchanged —
the returned phase is stored, so the record moves from Injected to "". -/
theorem action_error_counterexample :
    (implErr.recover 0 [{ id := "p1", selectorKey := "s", phase := Injected }] ()).2 = true ∧
    (processRecords implErr () StoppedPhase
        [{ id := "p1", selectorKey := "s", phase := Injected }] false).1 =
      [{ id := "p1", selectorKey := "s", phase := "" }] ∧
    ("" : String) ≠ Injected := by
  refine ⟨rfl, rfl, by decide⟩

/-- C6 amended: when an Apply or Recover invocation returns an error, the pass
logs it, stores the phase value returned alongside the error in the record
exactly as in the success case, still marks the pass dirty (so changed records
are persisted by the status write), and continues processing the remaining
records: the stored phase survives to the end of the loop and the loop still
visits the whole list. -/
theorem action_error_stores_returned_phase (impl : ChaosImpl α) (obj : α) (dp : String)
    (records : List Record) (su : Bool) (i : Nat) (h : i < records.length)
    (r : Record) (hr : (processUpTo impl obj dp records su i).1[i]? = some r) :
    (dp = RunningPhase → r.phase ≠ Injected →
      (impl.apply i (processUpTo impl obj dp records su i).1 obj).2 = true →
      (processRecords impl obj dp records su).1[i]? =
          some { r with phase := (impl.apply i (processUpTo impl obj dp records su i).1 obj).1 } ∧
      (processRecords impl obj dp records su).2.1 = true) ∧
    (dp = StoppedPhase → r.phase ≠ NotInjected →
      (impl.recover i (processUpTo impl obj dp records su i).1 obj).2 = true →
      (processRecords impl obj dp records su).1[i]? =
          some { r with phase := (impl.recover i (processUpTo impl obj dp records su i).1 obj).1 } ∧
      (processRecords impl obj dp records su).2.1 = true) ∧
    (processRecords impl obj dp records su).1.length = records.length := by
  have hstable : (processRecords impl obj dp records su).1[i]? =
      (processUpTo impl obj dp records su (i + 1)).1[i]? :=
    processUpTo_stable impl obj dp records su h
  refine ⟨?_, ?_, processUpTo_length impl obj dp records su records.length⟩
  · intro h1 h2 _herr
    have hfirestep :=
      @recordStep_apply_fire α impl obj dp (processUpTo impl obj dp records su i) i r hr h1 h2
    have hset : (processUpTo impl obj dp records su (i + 1)).1[i]? =
        some { r with phase := (impl.apply i (processUpTo impl obj dp records su i).1 obj).1 } := by
      rw [processUpTo_succ, hfirestep]
      exact List.getElem?_set_eq_of_lt _ (by rw [processUpTo_length]; exact h)
    refine ⟨hstable.trans hset, ?_⟩
    apply processUpTo_su_mono impl obj dp records su (Nat.succ_le_of_lt h)
    rw [processUpTo_succ, hfirestep]
  · intro h1 h2 _herr
    have hfirestep :=
      @recordStep_recover_fire α impl obj dp (processUpTo impl obj dp records su i) i r hr h1 h2
    have hset : (processUpTo impl obj dp records su (i + 1)).1[i]? =
        some { r with phase := (impl.recover i (processUpTo impl obj dp records su i).1 obj).1 } := by
      rw [processUpTo_succ, hfirestep]
      exact List.getElem?_set_eq_of_lt _ (by rw [processUpTo_length]; exact h)
    refine ⟨hstable.trans hset, ?_⟩
    apply processUpTo_su_mono impl obj dp records su (Nat.succ_le_of_lt h)
    rw [processUpTo_succ, hfirestep]

/-- Witness for the amended C6 at a concrete erroring Recover. -/
theorem action_error_stores_returned_phase_witness :
    (processRecords implErr () StoppedPhase
        [{ id := "p1", selectorKey := "s", phase := Injected }] false).1[0]? =
      some { id := "p1", selectorKey := "s", phase := "" } ∧
    (processRecords implErr () StoppedPhase
        [{ id := "p1", selectorKey := "s", phase := Injected }] false).2.1 = true :=
  (action_error_stores_returned_phase implErr () StoppedPhase
      [{ id := "p1", selectorKey := "s", phase := Injected }] false 0 (by decide)
      { id := "p1", selectorKey := "s", phase := Injected } rfl).2.1
    rfl (by decide) rfl

/- ===== Pause propagator (controllers/schedule/pause/controller.go) ===== -/

/-- strconv.FormatBool. -/
def formatBool (b : Bool) : String :=
  if b then "true" else "false"

/-- An active job owned by a schedule: its namespace/name key and its
annotation map (none = nil). -/
structure Job where
  key : String
  annotations : Option (List (String × String))
deriving Repr, DecidableEq

/-- One Update call issued by the pause propagator. -/
structure PauseUpdate where
  jobKey : String
  value : String
deriving Repr, DecidableEq

/-- Observable outcome of one pause-propagator pass. -/
structure PausePassResult where
  updates : List PauseUpdate
  jobs : List Job
  returnedError : Option String
deriving Repr, DecidableEq

/-- Writing the pause annotation on a job: create the annotation map when nil,
then set the pause key. -/
def setPauseAnnotation (j : Job) (v : String) : Job :=
  { j with annotations := some (goMapSet (j.annotations.getD []) PauseAnnotationKey v) }

/-- One pass of the pause propagator's Reconcile over the active job list: for
every job whose IsPaused disagrees with the schedule's pause flag, set its
pause annotation to FormatBool of the schedule flag under RetryOnConflict;
updateFails says whose retry budget is exhausted, in which case the pass logs,
emits a warning event and stops — returning a nil error, as every path of the
Go function does. -/
def pausePass (sp : Bool) (updateFails : String → Bool) : List Job → PausePassResult
  | [] => { updates := [], jobs := [], returnedError := none }
  | j :: rest =>
    if isPaused j.annotations != sp then
      if updateFails j.key then
        { updates := [], jobs := j :: rest, returnedError := none }
      else
        let res := pausePass sp updateFails rest
        { updates := { jobKey := j.key, value := formatBool sp } :: res.updates,
          jobs := setPauseAnnotation j (formatBool sp) :: res.jobs,
          returnedError := res.returnedError }
    else
      let res := pausePass sp updateFails rest
      { updates := res.updates, jobs := j :: res.jobs, returnedError := res.returnedError }

/-- C8: when no update hits a conflict, a pause-propagator pass issues exactly
one update per active job whose IsPaused disagrees with the schedule's,
setting that job's pause annotation to the string form of the schedule's pause
flag, and touches no job already in agreement. -/
theorem pause_propagation (sp : Bool) (updateFails : String → Bool) (jobs : List Job)
    (h : ∀ j ∈ jobs, updateFails j.key = false) :
    (pausePass sp updateFails jobs).updates =
      (jobs.filter (fun j => isPaused j.annotations != sp)).map
        (fun j => { jobKey := j.key, value := formatBool sp }) ∧
    (pausePass sp updateFails jobs).jobs =
      jobs.map (fun j =>
        if isPaused j.annotations != sp then setPauseAnnotation j (formatBool sp) else j) := by
  induction jobs with
  | nil => exact ⟨rfl, rfl⟩
  | cons j rest ih =>
    have hj : updateFails j.key = false := h j (List.mem_cons_self ..)
    have hrest := ih (fun x hx => h x (List.mem_cons_of_mem _ hx))
    cases hd : (isPaused j.annotations != sp) with
    | true =>
      have hne : isPaused j.annotations ≠ sp := by simpa using hd
      simp [pausePass, hd, hj, List.filter_cons, hrest.1, hrest.2, hne]
    | false =>
      have heq : isPaused j.annotations = sp := by simpa using hd
      simp [pausePass, hd, List.filter_cons, hrest.1, hrest.2, heq]

/-- Witness for C8: the spec's concrete scenario — a paused schedule with two
active jobs, one already annotated paused=true, one annotated paused=false —
makes exactly one update call, setting the second job's annotation to "true". -/
theorem pause_propagation_witness :
    (pausePass true (fun _ => false)
        [{ key := "ns/j1", annotations := some [(PauseAnnotationKey, "true")] },
         { key := "ns/j2", annotations := some [(PauseAnnotationKey, "false")] }]).updates =
      [{ jobKey := "ns/j2", value := "true" }] := by
  have h := pause_propagation true (fun _ => false)
    [{ key := "ns/j1", annotations := some [(PauseAnnotationKey, "true")] },
     { key := "ns/j2", annotations := some [(PauseAnnotationKey, "false")] }]
    (fun _ _ => rfl)
  rw [h.1]
  rfl

/- ===== C9: error surface of the reconcile entry points ===== -/

theorem pausePass_returnedError (sp : Bool) (updateFails : String → Bool)
    (jobs : List Job) : (pausePass sp updateFails jobs).returnedError = none := by
  induction jobs with
  | nil => rfl
  | cons j rest ih =>
    cases hd : (isPaused j.annotations != sp) with
    | true =>
      cases hf : updateFails j.key with
      | true => simp [pausePass, hd, hf]
      | false => simp [pausePass, hd, hf, ih]
    | false => simp [pausePass, hd, ih]

/-- C9 counterexample: a pass in which Apply fails and the status write
exhausts its conflict-retry budget still returns a nil error to the framework
— the failure is logged, not returned, contradicting the claim that every
such failure is returned from the Reconcile call. -/
theorem errors_swallowed_counterexample :
    (reconcilePass implErr () []
        ⟨RunningPhase, some [{ id := "t", selectorKey := "s", phase := NotInjected }]⟩
        (some "Conflict")).shouldUpdate = true ∧
    (reconcilePass implErr () []
        ⟨RunningPhase, some [{ id := "t", selectorKey := "s", phase := NotInjected }]⟩
        (some "Conflict")).written = false ∧
    (reconcilePass implErr () []
        ⟨RunningPhase, some [{ id := "t", selectorKey := "s", phase := NotInjected }]⟩
        (some "Conflict")).returnedError = none :=
  ⟨rfl, rfl, rfl⟩

/-- C9 amended: failures inside the experiment reconciler and the pause
propagator are logged (the pause propagator additionally emits a warning
event) but swallowed — both Reconcile entry points return a nil error to the
watch/work-queue framework on every input, relying on watch re-delivery
rather than error-driven requeue; neither calls process-exit, every pass
returns normally. -/
theorem errors_swallowed (impl : ChaosImpl α) (obj : α)
    (selectors : List (String × Option (List String))) (st : ExperimentStatus)
    (updateErr : Option String) (sp : Bool) (updateFails : String → Bool)
    (jobs : List Job) :
    (reconcilePass impl obj selectors st updateErr).returnedError = none ∧
    (pausePass sp updateFails jobs).returnedError = none := by
  refine ⟨?_, pausePass_returnedError sp updateFails jobs⟩
  cases hrec : st.records with
  | none =>
    cases he : (createdRecords selectors).isEmpty with
    | true => rw [reconcilePass_none_empty impl obj selectors st updateErr hrec he]
    | false => rw [reconcilePass_none_nonempty impl obj selectors st updateErr hrec he]
  | some rs => rw [reconcilePass_some impl obj selectors st updateErr rs hrec]

/- ===== C7 and C10 claim theorems ===== -/

/-- C7: bandwidth rate parsing — "1mbps" parses to 1 * 1024 * 1024 bytes/sec,
"2gbps" parses to 2 * 1024^3 bytes/sec, and "1xbps" fails with an explicit
error (concretely the numeric-parse error: the trailing "bps" is consumed as
the unit and "1x" fails to parse as an integer; an input matching no unit at
all gets the explicit invalid-rate-unit error). -/
theorem bandwidth_rate_parse :
    BandwidthSpec.toTbf ⟨"1mbps", 7, 9, none, none⟩ =
      Except.ok ⟨1 * 1024 * 1024, 7, 9, 0, 0⟩ ∧
    BandwidthSpec.toTbf ⟨"2gbps", 7, 9, none, none⟩ =
      Except.ok ⟨2 * 1024 ^ 3, 7, 9, 0, 0⟩ ∧
    (∃ e, BandwidthSpec.toTbf ⟨"1xbps", 7, 9, none, none⟩ = Except.error e) :=
  ⟨rfl, rfl, ⟨RateError.numberError, rfl⟩⟩

/-- C10: IsPaused returns true exactly when the annotation map is non-nil and
the pause annotation's value is the exact string "true"; a nil map, a missing
key, or any other value (including "True", "1" and "false") gives false. -/
theorem ispaused_characterization :
    (∀ a : Option (List (String × String)),
      isPaused a = true ↔ ∃ m, a = some m ∧ goMapGet m PauseAnnotationKey = "true") ∧
    isPaused none = false ∧
    isPaused (some []) = false ∧
    isPaused (some [(PauseAnnotationKey, "True")]) = false ∧
    isPaused (some [(PauseAnnotationKey, "1")]) = false ∧
    isPaused (some [(PauseAnnotationKey, "false")]) = false ∧
    isPaused (some [(PauseAnnotationKey, "true")]) = true := by
  refine ⟨?_, by decide, by decide, by decide, by decide, by decide, by decide⟩
  intro a
  cases a with
  | none => simp [isPaused]
  | some m =>
    by_cases h : goMapGet m PauseAnnotationKey = "true"
    · simp [isPaused, h]
    · simp [isPaused, h]

/- ===== Serial/parallel children diff (parallel_node_reconciler.go) ===== -/

/-- getTaskNameFromGeneratedName: strip the generated suffix after the last
'-'; a name with no '-' is returned whole. -/
def getTaskNameFromGeneratedName (generatedNodeName : String) : String :=
  match generatedNodeName.toList.reverse.dropWhile (fun c => c != '-') with
  | [] => generatedNodeName
  | _ :: rest => String.mk rest.reverse

/-- relativeComplementSet: the elements contained in former but not in latter.
The Go function materialises both lists as map key sets and walks the former
set in unspecified map order; here the kept elements come in dedup order. -/
def relativeComplementSet (former latter : List String) : List String :=
  former.dedup.filter (fun k => decide (k ∉ latter))

theorem mem_relativeComplementSet (former latter : List String) (x : String) :
    x ∈ relativeComplementSet former latter ↔ x ∈ former ∧ x ∉ latter := by
  simp [relativeComplementSet, List.mem_filter, List.mem_dedup]

theorem relativeComplementSet_pos (former latter : List String) :
    (relativeComplementSet former latter).length > 0 ↔ ∃ x ∈ former, x ∉ latter := by
  rw [gt_iff_lt, List.length_pos]
  constructor
  · intro h
    obtain ⟨x, hx⟩ := List.exists_mem_of_ne_nil _ h
    obtain ⟨h1, h2⟩ := (mem_relativeComplementSet _ _ x).mp hx
    exact ⟨x, h1, h2⟩
  · rintro ⟨x, h1, h2⟩
    intro hnil
    have hmem := (mem_relativeComplementSet former latter x).mpr ⟨h1, h2⟩
    rw [hnil] at hmem
    cases hmem

/-- The plan computed by one syncChildrenNodes pass: which existing children
are deleted and which declared tasks are scheduled for creation. -/
structure SyncOutcome where
  deleted : List String
  toStart : List String
deriving Repr, DecidableEq

/-- ParallelNodeReconciler.syncChildrenNodes as a pure plan: an empty declared
task list is a no-op; otherwise derive each existing child's task name by
suffix stripping, and either (task names exist that are not declared) delete
all existing children and start every declared task, or start exactly the
declared tasks not yet represented. -/
def syncChildrenPlan (tasks activeNames finishedNames : List String) : SyncOutcome :=
  if tasks.length == 0 then { deleted := [], toStart := [] }
  else if (relativeComplementSet
      ((activeNames ++ finishedNames).map getTaskNameFromGeneratedName) tasks).length > 0 then
    { deleted := activeNames ++ finishedNames, toStart := tasks }
  else
    { deleted := [],
      toStart := relativeComplementSet tasks
        ((activeNames ++ finishedNames).map getTaskNameFromGeneratedName) }

/-- C2 counterexample: with an empty declared task list and one existing child
a-x1 (whose task name "a" is not in the declared list), the pass is an
explicit no-op — it deletes nothing, contradicting the claim that all
existing children are deleted whenever E has a name not in D. -/
theorem task_diff_counterexample :
    ("a" ∈ (["a-x1"] ++ ([] : List String)).map getTaskNameFromGeneratedName ∧
      "a" ∉ ([] : List String)) ∧
    (syncChildrenPlan [] ["a-x1"] []).deleted = [] ∧
    (syncChildrenPlan [] ["a-x1"] []).deleted ≠ ["a-x1"] := by
  decide

/-- C2 amended: provided the declared task list is non-empty (an empty
declared list makes the pass a no-op — nothing is deleted or scheduled), a
reconcile pass behaves as claimed: if an existing child's task name is not
declared, all existing children are deleted and every declared task is
restarted; otherwise exactly the declared tasks not yet represented are
scheduled.  The two concrete scenarios of the claim hold as stated. -/
theorem task_diff_amended (tasks activeNames finishedNames : List String)
    (h : tasks ≠ []) :
    ((∃ e ∈ (activeNames ++ finishedNames).map getTaskNameFromGeneratedName, e ∉ tasks) →
      syncChildrenPlan tasks activeNames finishedNames =
        { deleted := activeNames ++ finishedNames, toStart := tasks }) ∧
    ((∀ e ∈ (activeNames ++ finishedNames).map getTaskNameFromGeneratedName, e ∈ tasks) →
      (syncChildrenPlan tasks activeNames finishedNames).deleted = [] ∧
      ∀ t, t ∈ (syncChildrenPlan tasks activeNames finishedNames).toStart ↔
        (t ∈ tasks ∧ t ∉ (activeNames ++ finishedNames).map getTaskNameFromGeneratedName)) ∧
    syncChildrenPlan ["a", "b", "c"] ["a-x1", "b-x2"] [] =
      { deleted := [], toStart := ["c"] } ∧
    syncChildrenPlan ["a"] ["a-x1", "b-x2"] [] =
      { deleted := ["a-x1", "b-x2"], toStart := ["a"] } := by
  have hlen : (tasks.length == 0) = false := by
    cases tasks with
    | nil => exact absurd rfl h
    | cons x xs => rfl
  refine ⟨?_, ?_, by decide, by decide⟩
  · rintro ⟨e, he, hne⟩
    have hpos : (relativeComplementSet
        ((activeNames ++ finishedNames).map getTaskNameFromGeneratedName) tasks).length > 0 :=
      (relativeComplementSet_pos _ _).mpr ⟨e, he, hne⟩
    unfold syncChildrenPlan
    simp only [hlen, Bool.false_eq_true, if_false]
    rw [if_pos hpos]
  · intro hall
    have hnopos : ¬((relativeComplementSet
        ((activeNames ++ finishedNames).map getTaskNameFromGeneratedName) tasks).length > 0) := by
      rw [relativeComplementSet_pos]
      rintro ⟨e, he, hne⟩
      exact hne (hall e he)
    unfold syncChildrenPlan
    simp only [hlen, Bool.false_eq_true, if_false]
    rw [if_neg hnopos]
    exact ⟨rfl, fun t => mem_relativeComplementSet tasks _ t⟩

/-- Witness for the amended C2 at the claim's first concrete scenario. -/
theorem task_diff_amended_witness :
    syncChildrenPlan ["a", "b", "c"] ["a-x1", "b-x2"] [] =
      { deleted := [], toStart := ["c"] } :=
  (task_diff_amended ["a", "b", "c"] ["a-x1", "b-x2"] [] (by decide)).2.2.1

/- ===== C3: the Accomplished condition of a parallel node ===== -/

def ConditionAccomplished : String := "Accomplished"

def ConditionTrue : String := "True"

def ConditionFalse : String := "False"

structure WorkflowNodeCondition where
  ctype : String
  status : String
  reason : String
deriving Repr, DecidableEq

structure WorkflowNodeStatus where
  activeChildren : List String
  finishedChildren : List String
  conditions : List WorkflowNodeCondition
deriving Repr, DecidableEq

/-- Modelled from the spec: SetCondition's body is not under src (only its
callers are); spec section 3 defines a Condition as "set-or-replace by type,
never duplicated", so setting a condition replaces any condition of the same
type and duplicates none. -/
def SetCondition (st : WorkflowNodeStatus) (cond : WorkflowNodeCondition) :
    WorkflowNodeStatus :=
  { st with conditions := cond :: st.conditions.filter (fun c => c.ctype != cond.ctype) }

/-- The status of the condition of the given type, if present. -/
def conditionStatus (st : WorkflowNodeStatus) (t : String) : Option String :=
  (st.conditions.find? (fun c => c.ctype == t)).map (fun c => c.status)

/-- The status-update closure of ParallelNodeReconciler.Reconcile: write the
re-fetched active and finished children into status and set the Accomplished
condition True iff the finished children count equals the declared task
count, else False. -/
def updateParallelStatus (tasks activeChildren finishedChildren : List String)
    (st : WorkflowNodeStatus) : WorkflowNodeStatus :=
  if finishedChildren.length == tasks.length then
    SetCondition
      { st with finishedChildren := finishedChildren, activeChildren := activeChildren }
      { ctype := ConditionAccomplished, status := ConditionTrue, reason := "" }
  else
    SetCondition
      { st with finishedChildren := finishedChildren, activeChildren := activeChildren }
      { ctype := ConditionAccomplished, status := ConditionFalse, reason := "" }

theorem conditionStatus_SetCondition (st : WorkflowNodeStatus)
    (cond : WorkflowNodeCondition) :
    conditionStatus (SetCondition st cond) cond.ctype = some cond.status := by
  unfold conditionStatus SetCondition
  rw [List.find?_cons_of_pos _ (by simp)]
  rfl

/-- C3: after the status update of a parallel node's reconcile pass, the
Accomplished condition is True exactly when the number of finished children
equals the number of declared tasks, and False in every other state. -/
theorem parallel_accomplished_iff (tasks activeChildren finishedChildren : List String)
    (st : WorkflowNodeStatus) :
    conditionStatus (updateParallelStatus tasks activeChildren finishedChildren st)
        ConditionAccomplished =
      some (if finishedChildren.length = tasks.length then ConditionTrue
        else ConditionFalse) ∧
    (conditionStatus (updateParallelStatus tasks activeChildren finishedChildren st)
        ConditionAccomplished = some ConditionTrue ↔
      finishedChildren.length = tasks.length) := by
  have hmain : conditionStatus (updateParallelStatus tasks activeChildren finishedChildren st)
      ConditionAccomplished =
      some (if finishedChildren.length = tasks.length then ConditionTrue
        else ConditionFalse) := by
    unfold updateParallelStatus
    by_cases hlen : finishedChildren.length = tasks.length
    · have hb : (finishedChildren.length == tasks.length) = true := by simp [hlen]
      simp only [hb, if_true, if_pos hlen]
      exact conditionStatus_SetCondition
        { st with finishedChildren := finishedChildren, activeChildren := activeChildren }
        { ctype := ConditionAccomplished, status := ConditionTrue, reason := "" }
    · have hb : (finishedChildren.length == tasks.length) = false := by simp [hlen]
      simp only [hb, Bool.false_eq_true, if_false, if_neg hlen]
      exact conditionStatus_SetCondition
        { st with finishedChildren := finishedChildren, activeChildren := activeChildren }
        { ctype := ConditionAccomplished, status := ConditionFalse, reason := "" }
  refine ⟨hmain, ?_⟩
  rw [hmain]
  by_cases hlen : finishedChildren.length = tasks.length
  · simp [hlen]
  · have hneq : ConditionFalse ≠ ConditionTrue := by decide
    simp [hlen, hneq]

end ChaosMesh
